import Mathlib

set_option autoImplicit false
set_option maxHeartbeats 1000000
set_option linter.unnecessarySimpa false
set_option linter.unreachableTactic false
set_option linter.unusedTactic false
set_option linter.unnecessarySeqFocus false

/-!
Shallow embedding of `streamlit_sync/synced_state.py`.

Conventions of the embedding:
* Timestamps (`datetime`) are modelled as `Nat`; `datetime.fromtimestamp(0)` is `0`
  and each call to `datetime.now()` is an explicit `now : Nat` input of the operation.
* Python values stored in the synced state are modelled by the decidable type
  `Value := Int` (the algorithm only ever compares values for (in)equality).
* Python `set` objects (`_registered_sessions`, the existing-room-names singleton)
  are modelled as duplicate-free `List String` with `setAdd` / `setDiscard`.
* Python `dict` objects are modelled either as functions `String → Option Value`
  (the room `state`, where only lookup/update is used) or as association lists
  (`updated_values`, which is built incrementally and whose `len` is tested).
* The pieces of the repository that live outside `synced_state.py`
  (`st_hack`, `utils.is_synced`) and the host runtime are modelled as explicit
  inputs (`SessionEnv`, `live`), following the spec's interface boundary.
-/

abbrev Value := Int

/-- Python `d[k] = v` on an association list: replace the binding if the key is
present, otherwise append a new binding at the end. -/
def dictInsert : List (String × Value) → String → Value → List (String × Value)
  | [], k, v => [(k, v)]
  | p :: rest, k, v => if p.1 = k then (k, v) :: rest else p :: dictInsert rest k v

/-- Python `d.get(k)` on an association list. -/
def lookupKV : List (String × Value) → String → Option Value
  | [], _ => none
  | p :: rest, k => if p.1 = k then some p.2 else lookupKV rest k

/-- The keys of an association list. -/
def keysOf (d : List (String × Value)) : List String := d.map Prod.fst

/-- Python `s.add(x)` on a set modelled as a duplicate-free list. -/
def setAdd (l : List String) (x : String) : List String :=
  if x ∈ l then l else l ++ [x]

/-- Python `s.discard(x)` on a set modelled as a duplicate-free list. -/
def setDiscard (l : List String) (x : String) : List String :=
  l.filter (fun y => y != x)

/-- `StreamlitSyncException` raised by `attach_to_disk`, plus the implicit
`AssertionError` of its `assert`.  The `configurationConflict` constructor
carries the room name, the requested cache dir and the existing cache dir,
exactly the data interpolated into the source's error message. -/
inductive StreamlitSyncException where
  | configurationConflict (room : String) (requested : String) (existing : String)
  | assertionFailed

/-- `pathlib`'s `cache_dir / room_name`. -/
def pathJoin (base name : String) : String := base ++ "/" ++ name

/-- The `_SyncedState` instance attributes (`__init__` plus the attributes
installed by `attach_to_disk`; `room_cache_dir` is `none` until then and the
`Cache` handle itself is represented by the mapping `state`). -/
structure SyncedState where
  room_name : String
  last_updated : Nat
  registered_sessions : List String
  state : String → Option Value
  use_cache : Bool
  room_cache_dir : Option String

/-- `_SyncedState.__init__`: epoch sentinel timestamp, no registered sessions,
empty in-memory state, no cache. -/
def SyncedState.init (room_name : String) : SyncedState where
  room_name := room_name
  last_updated := 0
  registered_sessions := []
  state := fun _ => none
  use_cache := false
  room_cache_dir := none

/-- `_SyncedState.nb_active_sessions`. -/
def nb_active_sessions (r : SyncedState) : Nat := r.registered_sessions.length

/-- The two `st.cache_resource` process-wide singletons: the memo table behind
`get_synced_state` and the set behind `get_existing_room_names`. -/
structure ProcessGlobals where
  synced_states : String → Option SyncedState
  existing_room_names : List String

/-- `get_existing_room_names()`: the process-wide set of room names. -/
def get_existing_room_names (g : ProcessGlobals) : List String :=
  g.existing_room_names

/-- `get_synced_state(room_name)`: return the memoized `_SyncedState` for the
room if one exists, else construct one and memoize it (`st.cache_resource`). -/
def get_synced_state (g : ProcessGlobals) (room_name : String) :
    SyncedState × ProcessGlobals :=
  match g.synced_states room_name with
  | some r => (r, g)
  | none =>
    (SyncedState.init room_name,
     { g with synced_states := fun n =>
        if n = room_name then some (SyncedState.init room_name) else g.synced_states n })

/-- `_SyncedState.register_session`: add the current session id to the room's
registered sessions and record the room name in the global name set. -/
def register_session (r : SyncedState) (g : ProcessGlobals) (sid : String) :
    SyncedState × ProcessGlobals :=
  ({ r with registered_sessions := setAdd r.registered_sessions sid },
   { g with existing_room_names := setAdd g.existing_room_names r.room_name })

/-- `_SyncedState.unregister_session`: discard the current session id. -/
def unregister_session (r : SyncedState) (sid : String) : SyncedState :=
  { r with registered_sessions := setDiscard r.registered_sessions sid }

/-- `_SyncedState.attach_to_disk(cache_dir)`: if already cached, a different
resolved target path is a `StreamlitSyncException`, the same target path is a
no-op; otherwise switch the room to the disk-backed mapping `disk` (the
contents of `Index.fromcache(Cache(room_cache_dir))`). -/
def attach_to_disk (r : SyncedState) (cache_dir : String)
    (disk : String → Option Value) : Except StreamlitSyncException SyncedState :=
  if r.use_cache then
    match r.room_cache_dir with
    | none => Except.error StreamlitSyncException.assertionFailed
    | some existing =>
      if existing ≠ pathJoin cache_dir r.room_name then
        Except.error
          (StreamlitSyncException.configurationConflict r.room_name
            (pathJoin cache_dir r.room_name) existing)
      else
        Except.ok r
  else
    Except.ok { r with
      use_cache := true
      room_cache_dir := some (pathJoin cache_dir r.room_name)
      state := disk }

/-- The per-interaction inputs that `sync` reads from the host runtime and the
boundary helpers: the three candidate item sources
(`_new_session_state.items()`, `_new_widget_state.items()`,
`st.session_state.items()`) and the classification/translation functions
(`st_hack.is_form_submitter_value`, `st_hack.is_trigger_value`,
`utils.is_synced`, `st_hack.widget_id_to_user_key`). -/
structure SessionEnv where
  new_session_state_items : List (String × Value)
  new_widget_state_items : List (String × Value)
  session_state_items : List (String × Value)
  is_form_submitter_value : String → Bool
  is_trigger_value : String → Bool
  is_synced : String → Bool
  widget_id_to_user_key : String → String

/-- The session-local mutable state visible to `sync`:
`st.session_state[LAST_SYNCED_KEY]` (absent ↦ `none`) and the session's
materialized internal values. -/
structure SessionLocal where
  lastSynced : Option Nat
  values : String → Option Value

/-- Modelled from the spec: `st_hack.set_internal_values` is not under `src/`;
per the spec's host-runtime boundary it overwrites the session's materialized
value set wholesale with the given mapping. -/
def set_internal_values (sess : SessionLocal) (s : String → Option Value) : SessionLocal :=
  { sess with values := s }

/-- The `itertools.chain` of the three candidate sources, in source order. -/
def sync_candidates (env : SessionEnv) : List (String × Value) :=
  env.new_session_state_items ++ env.new_widget_state_items ++ env.session_state_items

/-- One iteration of the candidate loop in `_SyncedState.sync` branch B:
skip form-submitter keys, trigger keys and non-synced keys; translate the key;
record the value in `updated_values` iff it differs from the room's stored
value for the translated key. -/
def sync_update_step (s : String → Option Value) (env : SessionEnv)
    (acc : List (String × Value)) (kv : String × Value) : List (String × Value) :=
  if env.is_form_submitter_value kv.1 then acc
  else if env.is_trigger_value kv.1 then acc
  else if !env.is_synced kv.1 then acc
  else
    let k := env.widget_id_to_user_key kv.1
    if some kv.2 ≠ s k then dictInsert acc k kv.2 else acc

/-- The `updated_values` dict computed by `_SyncedState.sync` branch B. -/
def computeUpdatedValues (env : SessionEnv) (s : String → Option Value) :
    List (String × Value) :=
  (sync_candidates env).foldl (sync_update_step s env) []

/-- Python `self.state.update(updated_values)`: apply each binding in order. -/
def applyUpdates (s : String → Option Value) (u : List (String × Value)) :
    String → Option Value :=
  u.foldl (fun s2 kv => fun k => if k = kv.1 then some kv.2 else s2 k) s

/-- The loop body of `_SyncedState._trigger_sessions`: for each registered id
other than the caller, either record a rerun request (live handle found) or
collect the id as inactive. The accumulator is (rerun targets, inactive ids). -/
def trigger_step (current : String) (live : String → Bool)
    (acc : List String × List String) (sid : String) : List String × List String :=
  if sid ≠ current then
    if live sid then (acc.1 ++ [sid], acc.2) else (acc.1, acc.2 ++ [sid])
  else acc

/-- `_SyncedState._trigger_sessions`: returns the list of session ids that
received a rerun request and the registered-session set after discarding every
collected inactive id.  `live sid` models
`runtime._session_mgr.get_session_info(sid) is not None`. -/
def trigger_sessions (regs : List String) (current : String) (live : String → Bool) :
    List String × List String :=
  let loop := regs.foldl (trigger_step current live) ([], [])
  (loop.1, loop.2.foldl setDiscard regs)

/-- The observable outcome of one `_SyncedState.sync` call: the room state
after the call, the session-local state after the call, whether
`st.experimental_rerun()` was requested for the calling session, and the list
of other sessions that received a rerun request. -/
structure SyncResult where
  room : SyncedState
  session : SessionLocal
  rerunSelf : Bool
  rerunOthers : List String

/-- `_SyncedState.sync`: branch A (session timestamp differs from
`last_updated`) pulls the room state into the session and reruns it; branch B
computes `updated_values` and, if non-empty, merges it into the room state,
advances `last_updated` to `now`, triggers the other sessions and records the
new timestamp in the session. -/
def sync (r : SyncedState) (sess : SessionLocal) (env : SessionEnv)
    (current : String) (live : String → Bool) (now : Nat) : SyncResult :=
  if sess.lastSynced ≠ some r.last_updated then
    { room := r
      session := { set_internal_values sess r.state with lastSynced := some r.last_updated }
      rerunSelf := true
      rerunOthers := [] }
  else
    if (computeUpdatedValues env r.state).length > 0 then
      { room := { r with
          state := applyUpdates r.state (computeUpdatedValues env r.state)
          last_updated := now
          registered_sessions := (trigger_sessions r.registered_sessions current live).2 }
        session := { sess with lastSynced := some now }
        rerunSelf := false
        rerunOthers := (trigger_sessions r.registered_sessions current live).1 }
    else
      { room := r, session := sess, rerunSelf := false, rerunOthers := [] }

/-- The operations of the room's public interface, for reasoning about
operation sequences.  `syncOp` carries the per-interaction inputs. -/
inductive Op where
  | register (sid : String)
  | unregister (sid : String)
  | syncOp (sess : SessionLocal) (env : SessionEnv) (current : String)
      (live : String → Bool) (now : Nat)
  | attach (base : String) (disk : String → Option Value)

/-- The `datetime.now()` reading consumed by an operation, if any. -/
def opNow : Op → Option Nat
  | Op.syncOp _ _ _ _ now => some now
  | _ => none

/-- Effect of one operation on the room component.  The globals argument of
`register_session` does not influence the room component, so a dummy is
passed. -/
def stepRoom (r : SyncedState) (op : Op) : SyncedState :=
  match op with
  | Op.register sid => (register_session r ⟨fun _ => none, []⟩ sid).1
  | Op.unregister sid => unregister_session r sid
  | Op.syncOp sess env current live now => (sync r sess env current live now).room
  | Op.attach base disk =>
    match attach_to_disk r base disk with
    | Except.ok r2 => r2
    | Except.error _ => r

/-- Run a sequence of operations on a room. -/
def runOps (r : SyncedState) (ops : List Op) : SyncedState :=
  ops.foldl stepRoom r

/-- The wall clock assumption: the `datetime.now()` readings consumed along an
operation sequence are at least `t` and non-decreasing. -/
def clockMono : Nat → List Op → Bool
  | _, [] => true
  | t, op :: rest =>
    match opNow op with
    | some n => decide (t ≤ n) && clockMono n rest
    | none => clockMono t rest

/-! ### Helper lemmas: folds and association lists -/

theorem foldl_invariant {α β : Type} (P : α → Prop) (f : α → β → α) (l : List β)
    (a : α) (h0 : P a) (hstep : ∀ acc b, P acc → P (f acc b)) : P (l.foldl f a) := by
  induction l generalizing a with
  | nil => exact h0
  | cons b l ih => exact ih (f a b) (hstep a b h0)

theorem lookupKV_dictInsert_self (d : List (String × Value)) (k : String) (v : Value) :
    lookupKV (dictInsert d k v) k = some v := by
  induction d with
  | nil => simp [dictInsert, lookupKV]
  | cons p rest ih =>
    by_cases hp : p.1 = k
    · simp [dictInsert, hp, lookupKV]
    · simp [dictInsert, hp, lookupKV, ih]

theorem lookupKV_dictInsert_ne (d : List (String × Value)) (k k2 : String) (v : Value)
    (h : k2 ≠ k) : lookupKV (dictInsert d k v) k2 = lookupKV d k2 := by
  induction d with
  | nil =>
    simp only [dictInsert, lookupKV]
    rw [if_neg (Ne.symm h)]
  | cons p rest ih =>
    by_cases hp : p.1 = k
    · subst hp
      simp only [dictInsert, if_pos rfl, lookupKV]
      rw [if_neg (Ne.symm h), if_neg (Ne.symm h)]
    · simp only [dictInsert, if_neg hp, lookupKV, ih]

theorem mem_dictInsert {p : String × Value} {d : List (String × Value)} {k : String}
    {v : Value} (h : p ∈ dictInsert d k v) : p = (k, v) ∨ p ∈ d := by
  induction d with
  | nil => simpa [dictInsert] using h
  | cons q rest ih =>
    by_cases hq : q.1 = k
    · simp only [dictInsert, if_pos hq, List.mem_cons] at h
      rcases h with h | h
      · exact Or.inl h
      · exact Or.inr (List.mem_cons_of_mem _ h)
    · simp only [dictInsert, if_neg hq, List.mem_cons] at h
      rcases h with h | h
      · exact Or.inr (h ▸ List.mem_cons_self _ _)
      · rcases ih h with h2 | h2
        · exact Or.inl h2
        · exact Or.inr (List.mem_cons_of_mem _ h2)

theorem mem_keysOf_dictInsert {x : String} {d : List (String × Value)} {k : String}
    {v : Value} (h : x ∈ keysOf (dictInsert d k v)) : x ∈ keysOf d ∨ x = k := by
  rcases List.mem_map.1 h with ⟨p, hp, hx⟩
  rcases mem_dictInsert hp with h2 | h2
  · right
    rw [← hx, h2]
  · left
    exact List.mem_map.2 ⟨p, h2, hx⟩

theorem keysOf_dictInsert_nodup {d : List (String × Value)} {k : String} {v : Value}
    (h : (keysOf d).Nodup) : (keysOf (dictInsert d k v)).Nodup := by
  induction d with
  | nil => simp [dictInsert, keysOf]
  | cons p rest ih =>
    simp only [keysOf, List.map_cons, List.nodup_cons] at h
    by_cases hp : p.1 = k
    · simp only [dictInsert, if_pos hp, keysOf, List.map_cons, List.nodup_cons]
      exact ⟨by rw [← hp]; exact h.1, h.2⟩
    · simp only [dictInsert, if_neg hp, keysOf, List.map_cons, List.nodup_cons]
      refine ⟨fun hmem => ?_, ih h.2⟩
      rcases mem_keysOf_dictInsert hmem with h2 | h2
      · exact h.1 h2
      · exact hp h2

theorem applyUpdates_nil (s : String → Option Value) : applyUpdates s [] = s := rfl

theorem applyUpdates_not_mem (s : String → Option Value) (u : List (String × Value))
    (k : String) (h : k ∉ keysOf u) : applyUpdates s u k = s k := by
  induction u generalizing s with
  | nil => rfl
  | cons p rest ih =>
    simp only [keysOf, List.map_cons, List.mem_cons, not_or] at h
    simp only [applyUpdates, List.foldl_cons]
    rw [show (rest.foldl (fun s2 kv => fun k2 => if k2 = kv.1 then some kv.2 else s2 k2)
        (fun k2 => if k2 = p.1 then some p.2 else s k2)) k
      = applyUpdates (fun k2 => if k2 = p.1 then some p.2 else s k2) rest k from rfl]
    rw [ih _ h.2]
    simp [h.1]

theorem applyUpdates_lookup (s : String → Option Value) (u : List (String × Value))
    (hu : (keysOf u).Nodup) (k : String) :
    applyUpdates s u k =
      match lookupKV u k with
      | some v => some v
      | none => s k := by
  induction u generalizing s with
  | nil => rfl
  | cons p rest ih =>
    simp only [keysOf, List.map_cons, List.nodup_cons] at hu
    simp only [applyUpdates, List.foldl_cons]
    rw [show (rest.foldl (fun s2 kv => fun k2 => if k2 = kv.1 then some kv.2 else s2 k2)
        (fun k2 => if k2 = p.1 then some p.2 else s k2)) k
      = applyUpdates (fun k2 => if k2 = p.1 then some p.2 else s k2) rest k from rfl]
    by_cases hk : k = p.1
    · subst hk
      rw [applyUpdates_not_mem _ _ _ hu.1]
      simp [lookupKV]
    · rw [ih _ hu.2]
      have hne : ¬ p.1 = k := fun hh => hk hh.symm
      simp only [lookupKV, if_neg hne, if_neg hk]

/-! ### Helper lemmas: the computed update set -/

theorem sync_update_step_cases (s : String → Option Value) (env : SessionEnv)
    (acc : List (String × Value)) (kv : String × Value) :
    sync_update_step s env acc kv = acc ∨
    (env.is_form_submitter_value kv.1 = false ∧ env.is_trigger_value kv.1 = false ∧
     env.is_synced kv.1 = true ∧ some kv.2 ≠ s (env.widget_id_to_user_key kv.1) ∧
     sync_update_step s env acc kv = dictInsert acc (env.widget_id_to_user_key kv.1) kv.2) := by
  by_cases h1 : env.is_form_submitter_value kv.1
  · exact Or.inl (by simp [sync_update_step, h1])
  · by_cases h2 : env.is_trigger_value kv.1
    · exact Or.inl (by simp [sync_update_step, h1, h2])
    · by_cases h3 : env.is_synced kv.1
      · by_cases h4 : some kv.2 ≠ s (env.widget_id_to_user_key kv.1)
        · refine Or.inr ⟨by simpa using h1, by simpa using h2, h3, h4, ?_⟩
          simp [sync_update_step, h1, h2, h3, h4]
        · exact Or.inl (by simp [sync_update_step, h1, h2, h3, h4])
      · exact Or.inl (by simp [sync_update_step, h1, h2, h3])

theorem computeUpdatedValues_keys_nodup (env : SessionEnv) (s : String → Option Value) :
    (keysOf (computeUpdatedValues env s)).Nodup := by
  unfold computeUpdatedValues
  refine foldl_invariant (fun acc => (keysOf acc).Nodup) _ _ _ (by simp [keysOf]) ?_
  intro acc kv h
  rcases sync_update_step_cases s env acc kv with hc | ⟨_, _, _, _, hc⟩
  · rw [hc]
    exact h
  · rw [hc]
    exact keysOf_dictInsert_nodup h

theorem computeUpdatedValues_sound (env : SessionEnv) (s : String → Option Value)
    (k : String) (v : Value) (h : lookupKV (computeUpdatedValues env s) k = some v) :
    s k ≠ some v := by
  have hP : ∀ k2 v2, lookupKV (computeUpdatedValues env s) k2 = some v2 → s k2 ≠ some v2 := by
    unfold computeUpdatedValues
    refine foldl_invariant
      (fun acc => ∀ k2 v2, lookupKV acc k2 = some v2 → s k2 ≠ some v2) _ _ _
      (by intro k2 v2 h2; simp [lookupKV] at h2) ?_
    intro acc kv ih k2 v2 hl
    rcases sync_update_step_cases s env acc kv with hc | ⟨h1, h2, h3, h4, hc⟩
    · rw [hc] at hl
      exact ih k2 v2 hl
    · rw [hc] at hl
      by_cases hk : k2 = env.widget_id_to_user_key kv.1
      · subst hk
        rw [lookupKV_dictInsert_self] at hl
        intro hh
        exact h4 (hl.trans hh.symm)
      · rw [lookupKV_dictInsert_ne _ _ _ _ hk] at hl
        exact ih k2 v2 hl
  exact hP k v h

theorem applyUpdates_changes (s : String → Option Value) (env : SessionEnv)
    (hne : computeUpdatedValues env s ≠ []) :
    applyUpdates s (computeUpdatedValues env s) ≠ s := by
  rcases List.exists_cons_of_ne_nil hne with ⟨p, rest, hcons⟩
  have hlook : lookupKV (computeUpdatedValues env s) p.1 = some p.2 := by
    rw [hcons]
    simp [lookupKV]
  have hsound : s p.1 ≠ some p.2 := computeUpdatedValues_sound env s p.1 p.2 hlook
  have happ : applyUpdates s (computeUpdatedValues env s) p.1 = some p.2 := by
    rw [applyUpdates_lookup s _ (computeUpdatedValues_keys_nodup env s) p.1, hlook]
  intro hcontra
  rw [hcontra] at happ
  exact hsound happ

/-! ### Helper lemmas: set operations -/

theorem mem_setAdd_self (l : List String) (x : String) : x ∈ setAdd l x := by
  unfold setAdd
  by_cases h : x ∈ l
  · simpa [h]
  · simp [h]

theorem setAdd_idem (l : List String) (x : String) : setAdd (setAdd l x) x = setAdd l x := by
  unfold setAdd
  by_cases h : x ∈ l
  · simp [h]
  · simp [h, List.mem_append]

theorem subset_setAdd (l : List String) (x : String) : l ⊆ setAdd l x := by
  unfold setAdd
  by_cases h : x ∈ l
  · simp [h]
  · simp only [h, if_false]
    exact List.subset_append_left l [x]

theorem mem_setDiscard (l : List String) (x y : String) :
    y ∈ setDiscard l x ↔ y ∈ l ∧ y ≠ x := by
  simp [setDiscard, List.mem_filter, bne_iff_ne]

theorem setDiscard_not_mem (l : List String) (x : String) (h : x ∉ l) :
    setDiscard l x = l := by
  unfold setDiscard
  refine List.filter_eq_self.2 ?_
  intro y hy
  simp only [bne_iff_ne, ne_eq, decide_eq_true_eq]
  intro hxy
  exact h (hxy ▸ hy)

/-! ### Helper lemmas: the trigger loop -/

theorem trigger_loop_fst (current : String) (live : String → Bool) (l : List String) :
    ∀ (acc : List String × List String) (x : String),
      x ∈ (l.foldl (trigger_step current live) acc).1 ↔
        x ∈ acc.1 ∨ (x ∈ l ∧ x ≠ current ∧ live x = true) := by
  induction l with
  | nil => simp
  | cons a l ih =>
    intro acc x
    rw [List.foldl_cons, ih]
    unfold trigger_step
    by_cases hx : x = a
    · subst hx
      by_cases ha : x ≠ current <;> by_cases hl2 : live x <;>
        simp [ha, hl2] <;> tauto
    · by_cases ha : a ≠ current <;> by_cases hl2 : live a <;>
        simp [ha, hl2, hx] <;> tauto

theorem trigger_loop_snd (current : String) (live : String → Bool) (l : List String) :
    ∀ (acc : List String × List String) (x : String),
      x ∈ (l.foldl (trigger_step current live) acc).2 ↔
        x ∈ acc.2 ∨ (x ∈ l ∧ x ≠ current ∧ live x = false) := by
  induction l with
  | nil => simp
  | cons a l ih =>
    intro acc x
    rw [List.foldl_cons, ih]
    unfold trigger_step
    by_cases hx : x = a
    · subst hx
      by_cases ha : x ≠ current <;> by_cases hl2 : live x <;>
        simp [ha, hl2] <;> tauto
    · by_cases ha : a ≠ current <;> by_cases hl2 : live a <;>
        simp [ha, hl2, hx] <;> tauto

theorem foldl_setDiscard_mem (l : List String) :
    ∀ (regs : List String) (x : String),
      x ∈ l.foldl setDiscard regs ↔ x ∈ regs ∧ x ∉ l := by
  induction l with
  | nil => simp
  | cons a l ih =>
    intro regs x
    rw [List.foldl_cons, ih]
    rw [mem_setDiscard]
    simp only [List.mem_cons, not_or]
    constructor
    · rintro ⟨⟨h1, h2⟩, h3⟩
      exact ⟨h1, h2, h3⟩
    · rintro ⟨h1, h2, h3⟩
      exact ⟨⟨h1, h2⟩, h3⟩

theorem mem_trigger_sessions_fst (regs : List String) (current : String)
    (live : String → Bool) (x : String) :
    x ∈ (trigger_sessions regs current live).1 ↔
      x ∈ regs ∧ x ≠ current ∧ live x = true := by
  unfold trigger_sessions
  rw [trigger_loop_fst]
  simp

theorem mem_trigger_sessions_snd (regs : List String) (current : String)
    (live : String → Bool) (x : String) :
    x ∈ (trigger_sessions regs current live).2 ↔
      x ∈ regs ∧ ¬(x ≠ current ∧ live x = false) := by
  unfold trigger_sessions
  rw [foldl_setDiscard_mem, trigger_loop_snd]
  simp only [List.not_mem_nil, false_or]
  constructor
  · rintro ⟨h1, h2⟩
    exact ⟨h1, fun hc => h2 ⟨h1, hc.1, hc.2⟩⟩
  · rintro ⟨h1, h2⟩
    exact ⟨h1, fun hc => h2 ⟨hc.2.1, hc.2.2⟩⟩

/-! ### Helper lemmas: operation sequences and the clock -/

theorem clockMono_weaken (t t2 : Nat) (h : t2 ≤ t) :
    ∀ ops : List Op, clockMono t ops = true → clockMono t2 ops = true := by
  intro ops
  induction ops with
  | nil => intro _; rfl
  | cons op rest ih =>
    intro hc
    cases hop : opNow op with
    | none =>
      simp only [clockMono, hop] at hc ⊢
      exact ih hc
    | some n =>
      simp only [clockMono, hop, Bool.and_eq_true, decide_eq_true_eq] at hc ⊢
      exact ⟨le_trans h hc.1, hc.2⟩

theorem stepRoom_last_updated (r : SyncedState) (op : Op) :
    (stepRoom r op).last_updated = r.last_updated ∨
    (∃ n, opNow op = some n ∧ (stepRoom r op).last_updated = n ∧
      (stepRoom r op).state ≠ r.state) := by
  cases op with
  | register sid => exact Or.inl rfl
  | unregister sid => exact Or.inl rfl
  | attach base disk =>
    refine Or.inl ?_
    simp only [stepRoom, attach_to_disk]
    by_cases hc : r.use_cache
    · rw [if_pos hc]
      cases hrd : r.room_cache_dir with
      | none => rfl
      | some existing =>
        by_cases hne2 : existing ≠ pathJoin base r.room_name
        · simp [hne2]
        · simp [hne2]
    · rw [if_neg hc]
  | syncOp sess env current live now =>
    by_cases hA : sess.lastSynced ≠ some r.last_updated
    · refine Or.inl ?_
      simp only [stepRoom, sync]
      rw [if_pos hA]
    · by_cases hlen : (computeUpdatedValues env r.state).length > 0
      · refine Or.inr ⟨now, rfl, ?_, ?_⟩
        · simp only [stepRoom, sync]
          rw [if_neg hA, if_pos hlen]
        · simp only [stepRoom, sync]
          rw [if_neg hA, if_pos hlen]
          exact applyUpdates_changes r.state env (List.length_pos.mp hlen)
      · refine Or.inl ?_
        simp only [stepRoom, sync]
        rw [if_neg hA, if_neg hlen]

theorem clockMono_step (r : SyncedState) (op : Op) (rest : List Op)
    (h : clockMono r.last_updated (op :: rest) = true) :
    r.last_updated ≤ (stepRoom r op).last_updated ∧
    clockMono (stepRoom r op).last_updated rest = true := by
  cases hop : opNow op with
  | none =>
    rcases stepRoom_last_updated r op with hlu | ⟨n, hn, _, _⟩
    · simp only [clockMono, hop] at h
      rw [hlu]
      exact ⟨le_refl _, h⟩
    · rw [hop] at hn
      cases hn
  | some n =>
    simp only [clockMono, hop, Bool.and_eq_true, decide_eq_true_eq] at h
    rcases stepRoom_last_updated r op with hlu | ⟨n2, hn2, hlu, _⟩
    · rw [hlu]
      exact ⟨le_refl _, clockMono_weaken n r.last_updated h.1 rest h.2⟩
    · rw [hop] at hn2
      injection hn2 with hn2
      subst hn2
      rw [hlu]
      exact ⟨h.1, h.2⟩

theorem runOps_mono (ops : List Op) : ∀ (r : SyncedState),
    clockMono r.last_updated ops = true →
    r.last_updated ≤ (runOps r ops).last_updated := by
  induction ops with
  | nil => intro r _; exact le_refl _
  | cons op rest ih =>
    intro r h
    rcases clockMono_step r op rest h with ⟨h1, h2⟩
    exact le_trans h1 (ih (stepRoom r op) h2)

theorem clockMono_append (pre rest : List Op) : ∀ (r : SyncedState),
    clockMono r.last_updated (pre ++ rest) = true →
    clockMono (runOps r pre).last_updated rest = true := by
  induction pre with
  | nil => intro r h; exact h
  | cons op pre2 ih =>
    intro r h
    rcases clockMono_step r op (pre2 ++ rest) h with ⟨_, h2⟩
    exact ih (stepRoom r op) h2

/-! ### Concrete fixtures used by the witnesses -/

/-- An interaction environment with no pending values. -/
def trivialEnv : SessionEnv where
  new_session_state_items := []
  new_widget_state_items := []
  session_state_items := []
  is_form_submitter_value := fun _ => false
  is_trigger_value := fun _ => false
  is_synced := fun _ => true
  widget_id_to_user_key := fun k => k

/-- An interaction environment with a single pending synced value `x ↦ 1`. -/
def envX : SessionEnv where
  new_session_state_items := [("x", 1)]
  new_widget_state_items := []
  session_state_items := []
  is_form_submitter_value := fun _ => false
  is_trigger_value := fun _ => false
  is_synced := fun _ => true
  widget_id_to_user_key := fun k => k

/-- A room with two registered sessions. -/
def roomAB : SyncedState :=
  { SyncedState.init "c2" with registered_sessions := ["A", "B"] }

/-- A room already attached to disk at `/tmp/w6`. -/
def attachedRoom : SyncedState :=
  { SyncedState.init "w6" with use_cache := true, room_cache_dir := some "/tmp/w6" }

/-- A fresh process state: no memoized rooms, no recorded room names. -/
def gEmpty : ProcessGlobals where
  synced_states := fun _ => none
  existing_room_names := []

/-! ### C1 -/

/-- C1: in a sync interaction where the session's recorded last-synced
timestamp differs from the room's `last_updated` (branch A), `sync` overwrites
the session's local values with the room's current state, sets the session's
last-synced timestamp to the room's `last_updated`, requests an immediate
rerun of the calling session, broadcasts to no other session, leaves the room
untouched, and its outcome is independent of the session's pending writes
(branch B is not executed). -/
theorem sync_branchA_pulls (r : SyncedState) (sess : SessionLocal) (env : SessionEnv)
    (current : String) (live : String → Bool) (now : Nat)
    (hA : sess.lastSynced ≠ some r.last_updated) :
    (sync r sess env current live now).session.values = r.state ∧
    (sync r sess env current live now).session.lastSynced = some r.last_updated ∧
    (sync r sess env current live now).rerunSelf = true ∧
    (sync r sess env current live now).rerunOthers = [] ∧
    (sync r sess env current live now).room = r ∧
    ∀ env2 : SessionEnv, sync r sess env2 current live now = sync r sess env current live now := by
  have hs : ∀ env2 : SessionEnv, sync r sess env2 current live now =
      { room := r
        session := { set_internal_values sess r.state with lastSynced := some r.last_updated }
        rerunSelf := true
        rerunOthers := [] } := by
    intro env2
    unfold sync
    rw [if_pos hA]
  refine ⟨?_, ?_, ?_, ?_, ?_, fun env2 => (hs env2).trans (hs env).symm⟩ <;>
    rw [hs env] <;> rfl

/-- Witness for C1 at a concrete stale session. -/
theorem sync_branchA_pulls_witness :
    (⟨none, fun _ => none⟩ : SessionLocal).lastSynced ≠
      some (SyncedState.init "a1").last_updated ∧
    (sync (SyncedState.init "a1") ⟨none, fun _ => none⟩ trivialEnv "A"
      (fun _ => true) 5).rerunSelf = true :=
  ⟨by decide,
   (sync_branchA_pulls (SyncedState.init "a1") ⟨none, fun _ => none⟩ trivialEnv "A"
      (fun _ => true) 5 (by decide)).2.2.1⟩

/-! ### C10 -/

/-- C10: the stale-pull branch A of `sync` leaves every component of the
shared room untouched: state map, `last_updated`, registered sessions and the
storage mode fields. -/
theorem sync_branchA_frame (r : SyncedState) (sess : SessionLocal) (env : SessionEnv)
    (current : String) (live : String → Bool) (now : Nat)
    (hA : sess.lastSynced ≠ some r.last_updated) :
    (sync r sess env current live now).room.state = r.state ∧
    (sync r sess env current live now).room.last_updated = r.last_updated ∧
    (sync r sess env current live now).room.registered_sessions = r.registered_sessions ∧
    (sync r sess env current live now).room.use_cache = r.use_cache ∧
    (sync r sess env current live now).room.room_cache_dir = r.room_cache_dir := by
  have hroom : (sync r sess env current live now).room = r := by
    unfold sync
    rw [if_pos hA]
  rw [hroom]
  exact ⟨rfl, rfl, rfl, rfl, rfl⟩

/-- Witness for C10 at a concrete stale session. -/
theorem sync_branchA_frame_witness :
    (⟨some 3, fun _ => none⟩ : SessionLocal).lastSynced ≠
      some (SyncedState.init "a10").last_updated ∧
    (sync (SyncedState.init "a10") ⟨some 3, fun _ => none⟩ envX "A"
      (fun _ => false) 7).room.last_updated = (SyncedState.init "a10").last_updated :=
  ⟨by decide,
   (sync_branchA_frame (SyncedState.init "a10") ⟨some 3, fun _ => none⟩ envX "A"
      (fun _ => false) 7 (by decide)).2.1⟩

/-! ### C7 -/

/-- C7: in `_trigger_sessions`, every registered session other than the caller
whose live handle is gone is absent from the registered set afterwards, every
registered session other than the caller with a live handle receives a rerun
request, and the caller receives none.  (The operation is a total function:
the dead-session case prunes instead of raising.) -/
theorem trigger_sessions_spec (regs : List String) (current : String)
    (live : String → Bool) (sid : String)
    (hmem : sid ∈ regs) (hne : sid ≠ current) :
    (if live sid then sid ∈ (trigger_sessions regs current live).1
     else sid ∉ (trigger_sessions regs current live).2) ∧
    current ∉ (trigger_sessions regs current live).1 := by
  constructor
  · by_cases hl : live sid
    · rw [if_pos hl]
      exact (mem_trigger_sessions_fst regs current live sid).2 ⟨hmem, hne, hl⟩
    · rw [if_neg hl]
      intro hc
      rcases (mem_trigger_sessions_snd regs current live sid).1 hc with ⟨_, h2⟩
      exact h2 ⟨hne, by simpa using hl⟩
  · intro hc
    rcases (mem_trigger_sessions_fst regs current live current).1 hc with ⟨_, h2, _⟩
    exact h2 rfl

/-- Witness for C7: three registered sessions, caller `A`, only `B` live. -/
theorem trigger_sessions_spec_witness :
    "B" ∈ ["A", "B", "C"] ∧ "B" ≠ "A" ∧
    ((if (fun s => s == "B") "B" then
        "B" ∈ (trigger_sessions ["A", "B", "C"] "A" (fun s => s == "B")).1
      else
        "B" ∉ (trigger_sessions ["A", "B", "C"] "A" (fun s => s == "B")).2) ∧
      "A" ∉ (trigger_sessions ["A", "B", "C"] "A" (fun s => s == "B")).1) :=
  ⟨by decide, by decide,
   trigger_sessions_spec ["A", "B", "C"] "A" (fun s => s == "B") "B"
     (by decide) (by decide)⟩

/-! ### C9 -/

/-- C9: registering the same session id twice leaves the registered-session
set with the same size as registering it once, and unregistering an absent
session id is a no-op (and in particular raises no error). -/
theorem register_unregister_idempotent (r : SyncedState) (g : ProcessGlobals)
    (sid : String) (habs : sid ∉ r.registered_sessions) :
    nb_active_sessions
        (register_session (register_session r g sid).1 (register_session r g sid).2 sid).1 =
      nb_active_sessions (register_session r g sid).1 ∧
    unregister_session r sid = r := by
  constructor
  · unfold register_session nb_active_sessions
    simp only
    rw [setAdd_idem]
  · unfold unregister_session
    rw [setDiscard_not_mem _ _ habs]

/-- Witness for C9 on a fresh room. -/
theorem register_unregister_idempotent_witness :
    "S" ∉ (SyncedState.init "a9").registered_sessions ∧
    unregister_session (SyncedState.init "a9") "S" = SyncedState.init "a9" :=
  ⟨by decide,
   (register_unregister_idempotent (SyncedState.init "a9") gEmpty "S" (by decide)).2⟩

/-! ### C6 -/

/-- C6: on a room already attached to durable storage, a second
`attach_to_disk` whose base directory resolves to the existing target path is
an idempotent success that leaves the room (and hence its single existing
backing container) unchanged, while a base directory resolving to a different
target path fails with a configuration-conflict error naming both paths. -/
theorem attach_to_disk_conflict (r : SyncedState) (base : String)
    (disk : String → Option Value) (p : String)
    (hc : r.use_cache = true) (hp : r.room_cache_dir = some p) :
    attach_to_disk r base disk =
      if pathJoin base r.room_name = p then Except.ok r
      else Except.error (StreamlitSyncException.configurationConflict r.room_name
        (pathJoin base r.room_name) p) := by
  unfold attach_to_disk
  rw [if_pos hc, hp]
  show (if p ≠ pathJoin base r.room_name then
      Except.error (StreamlitSyncException.configurationConflict r.room_name
        (pathJoin base r.room_name) p)
    else Except.ok r) = _
  by_cases hq : pathJoin base r.room_name = p
  · rw [if_pos hq]
    have hne : ¬ p ≠ pathJoin base r.room_name := fun hh => hh hq.symm
    rw [if_neg hne]
  · rw [if_neg hq]
    have hne : p ≠ pathJoin base r.room_name := fun hh => hq hh.symm
    rw [if_pos hne]

/-- Witness for C6: `attachedRoom` is bound to `/tmp/w6`; attaching under the
base directory `/other` resolves to `/other/w6` and raises the conflict
naming both paths. -/
theorem attach_to_disk_conflict_witness :
    attachedRoom.use_cache = true ∧
    attachedRoom.room_cache_dir = some "/tmp/w6" ∧
    attach_to_disk attachedRoom "/other" (fun _ => none) =
      Except.error (StreamlitSyncException.configurationConflict attachedRoom.room_name
        (pathJoin "/other" attachedRoom.room_name) "/tmp/w6") := by
  refine ⟨rfl, rfl, ?_⟩
  have h := attach_to_disk_conflict attachedRoom "/other" (fun _ => none) "/tmp/w6" rfl rfl
  rw [if_neg (by decide)] at h
  exact h

/-! ### C5 -/

/-- A well-formed registry: every memoized room is stored under its own name.
This invariant holds for the fresh registry and is preserved by
`get_synced_state` (last conjunct of the C5 theorem). -/
def RegistryWF (g : ProcessGlobals) : Prop :=
  ∀ n r, g.synced_states n = some r → r.room_name = n

/-- C5: room lookups behave as singletons: looking the same name up twice
returns the same room and leaves the registry untouched (so at most one room
object exists per name), looking up a different name returns a distinct room,
and well-formedness of the registry is preserved. -/
theorem get_synced_state_singleton (g : ProcessGlobals) (n1 n2 : String)
    (hwf : RegistryWF g) (hne : n1 ≠ n2) :
    (get_synced_state (get_synced_state g n1).2 n1).1 = (get_synced_state g n1).1 ∧
    (get_synced_state (get_synced_state g n1).2 n1).2 = (get_synced_state g n1).2 ∧
    (get_synced_state (get_synced_state g n1).2 n2).1 ≠ (get_synced_state g n1).1 ∧
    RegistryWF (get_synced_state g n1).2 := by
  have hname : ∀ (g2 : ProcessGlobals) (n : String), RegistryWF g2 →
      (get_synced_state g2 n).1.room_name = n := by
    intro g2 n hwf2
    unfold get_synced_state
    cases hg : g2.synced_states n with
    | some r => exact hwf2 n r hg
    | none => rfl
  cases hg : g.synced_states n1 with
  | some r =>
    have e1 : get_synced_state g n1 = (r, g) := by
      unfold get_synced_state
      rw [hg]
    refine ⟨?_, ?_, ?_, ?_⟩
    · rw [e1]
      simp only
      rw [e1]
    · rw [e1]
      simp only
      rw [e1]
    · rw [e1]
      simp only
      have h2 : (get_synced_state g n2).1.room_name = n2 := hname g n2 hwf
      have h1 : r.room_name = n1 := hwf n1 r hg
      intro hcontra
      rw [hcontra, h1] at h2
      exact hne h2
    · rw [e1]
      exact hwf
  | none =>
    have e1 : get_synced_state g n1 =
        (SyncedState.init n1,
         { g with synced_states := fun n =>
            if n = n1 then some (SyncedState.init n1) else g.synced_states n }) := by
      unfold get_synced_state
      rw [hg]
    have hwf1 : RegistryWF (get_synced_state g n1).2 := by
      rw [e1]
      intro n3 r3 h3
      simp only at h3
      by_cases he : n3 = n1
      · subst he
        rw [if_pos rfl] at h3
        cases h3
        rfl
      · rw [if_neg he] at h3
        exact hwf n3 r3 h3
    refine ⟨?_, ?_, ?_, hwf1⟩
    · rw [e1]
      simp [get_synced_state]
    · rw [e1]
      simp [get_synced_state]
    · have h2 : (get_synced_state (get_synced_state g n1).2 n2).1.room_name = n2 :=
        hname _ n2 hwf1
      have h1 : (get_synced_state g n1).1.room_name = n1 := hname g n1 hwf
      intro hcontra
      rw [hcontra, h1] at h2
      exact hne h2

/-- Witness for C5 on the fresh registry and names `a`, `b`. -/
theorem get_synced_state_singleton_witness :
    "a" ≠ "b" ∧
    (get_synced_state (get_synced_state gEmpty "a").2 "a").1 =
      (get_synced_state gEmpty "a").1 ∧
    (get_synced_state (get_synced_state gEmpty "a").2 "b").1 ≠
      (get_synced_state gEmpty "a").1 :=
  ⟨by decide,
   (get_synced_state_singleton gEmpty "a" "b"
     (fun _ _ h => Option.noConfusion h) (by decide)).1,
   (get_synced_state_singleton gEmpty "a" "b"
     (fun _ _ h => Option.noConfusion h) (by decide)).2.2.1⟩

/-! ### C8 -/

/-- C8 counterexample: creating a room through the registry does not record
its name.  Starting from the fresh process state, `get_synced_state` has
returned (and memoized) the room named `r1`, yet `r1` is not in the
existing-room-names set. -/
theorem created_room_name_not_listed :
    ((get_synced_state gEmpty "r1").2.synced_states "r1").isSome = true ∧
    "r1" ∉ get_existing_room_names (get_synced_state gEmpty "r1").2 := by
  constructor
  · rfl
  · decide

/-- C8 (amended): it is session registration, not room creation, that makes a
room name discoverable: `register_session` records the room's name in the
global existing-room-names set, and never removes names already present. -/
theorem register_session_records_name (r : SyncedState) (g : ProcessGlobals)
    (sid : String) :
    r.room_name ∈ get_existing_room_names (register_session r g sid).2 ∧
    get_existing_room_names g ⊆ get_existing_room_names (register_session r g sid).2 := by
  unfold register_session get_existing_room_names
  exact ⟨mem_setAdd_self _ _, subset_setAdd _ _⟩

/-! ### C3 -/

/-- C3: a key classified as a form-submission control value, as a one-shot
trigger value, or as not participating in sync is never present in the update
set, regardless of whether its value changed.  The hypothesis `htrans` states
that no distinct candidate key translates onto `k` unless it is itself
filtered, ruling out an unrelated widget id aliasing the user key `k`. -/
theorem filtered_key_not_in_update_set (env : SessionEnv) (s : String → Option Value)
    (k : String)
    (hbad : env.is_form_submitter_value k = true ∨ env.is_trigger_value k = true ∨
      env.is_synced k = false)
    (htrans : ∀ k2, k2 ≠ k → env.widget_id_to_user_key k2 = k →
      env.is_form_submitter_value k2 = true ∨ env.is_trigger_value k2 = true ∨
        env.is_synced k2 = false) :
    lookupKV (computeUpdatedValues env s) k = none := by
  unfold computeUpdatedValues
  refine foldl_invariant (fun acc => lookupKV acc k = none) _ _ _ rfl ?_
  intro acc kv ih
  rcases sync_update_step_cases s env acc kv with hc | ⟨h1, h2, h3, _, hc⟩
  · rw [hc]
    exact ih
  · rw [hc]
    have hkk : env.widget_id_to_user_key kv.1 ≠ k := by
      intro he
      by_cases hk1 : kv.1 = k
      · subst hk1
        rcases hbad with hb | hb | hb
        · simp [h1] at hb
        · simp [h2] at hb
        · simp [h3] at hb
      · rcases htrans kv.1 hk1 he with hb | hb | hb
        · simp [h1] at hb
        · simp [h2] at hb
        · simp [h3] at hb
    rw [lookupKV_dictInsert_ne _ _ _ _ (Ne.symm hkk)]
    exact ih

/-- An interaction environment whose key `b` is a trigger value with a changed
value, used to witness C3. -/
def badEnv : SessionEnv where
  new_session_state_items := [("b", 7)]
  new_widget_state_items := []
  session_state_items := []
  is_form_submitter_value := fun _ => false
  is_trigger_value := fun k => k == "b"
  is_synced := fun _ => true
  widget_id_to_user_key := fun k => k

/-- Witness for C3: the trigger key `b` has a pending changed value but is
absent from the update set. -/
theorem filtered_key_not_in_update_set_witness :
    badEnv.is_trigger_value "b" = true ∧
    lookupKV (computeUpdatedValues badEnv (fun _ => none)) "b" = none :=
  ⟨by decide,
   filtered_key_not_in_update_set badEnv (fun _ => none) "b"
     (Or.inr (Or.inl (by decide)))
     (fun _ h1 h2 => absurd h2 h1)⟩

/-! ### C2 -/

/-- C2 counterexample: in a branch-B interaction with a non-empty update set,
a registered session other than the caller whose live handle is gone receives
no rerun request (it is pruned instead), contradicting the claim that every
registered session other than the caller is sent a rerun request. -/
theorem sync_branchB_counterexample :
    "B" ∈ roomAB.registered_sessions ∧ "B" ≠ "A" ∧
    (⟨some 0, fun _ => none⟩ : SessionLocal).lastSynced = some roomAB.last_updated ∧
    computeUpdatedValues envX roomAB.state ≠ [] ∧
    "B" ∉ (sync roomAB ⟨some 0, fun _ => none⟩ envX "A" (fun _ => false) 5).rerunOthers := by
  decide

/-- C2 (amended): in a branch-B interaction (session timestamp equal to the
room's), if the computed update set is non-empty then `sync` merges it into
the room's state (keys outside the update set keep their previous values),
sets the room's `last_updated` to the current time, records that timestamp as
the session's last-synced value, sends a rerun request exactly to every
registered session other than the caller that still has a live handle, and in
particular to none to the caller; if the update set is empty, the room, the
session and the broadcast are all unchanged/empty. -/
theorem sync_branchB_pushes (r : SyncedState) (sess : SessionLocal) (env : SessionEnv)
    (current : String) (live : String → Bool) (now : Nat)
    (hEq : sess.lastSynced = some r.last_updated) :
    if computeUpdatedValues env r.state = [] then
      sync r sess env current live now =
        { room := r, session := sess, rerunSelf := false, rerunOthers := [] }
    else
      ((sync r sess env current live now).room.state = fun k =>
          match lookupKV (computeUpdatedValues env r.state) k with
          | some v => some v
          | none => r.state k) ∧
      (sync r sess env current live now).room.last_updated = now ∧
      (sync r sess env current live now).session.lastSynced = some now ∧
      (∀ sid : String, sid ∈ (sync r sess env current live now).rerunOthers ↔
        sid ∈ r.registered_sessions ∧ sid ≠ current ∧ live sid = true) ∧
      current ∉ (sync r sess env current live now).rerunOthers := by
  have hA : ¬ sess.lastSynced ≠ some r.last_updated := not_not_intro hEq
  by_cases hu : computeUpdatedValues env r.state = []
  · rw [if_pos hu]
    unfold sync
    rw [if_neg hA, if_neg (by simp [hu])]
  · rw [if_neg hu]
    have hlen : (computeUpdatedValues env r.state).length > 0 := List.length_pos.mpr hu
    have hs : sync r sess env current live now =
        { room := { r with
            state := applyUpdates r.state (computeUpdatedValues env r.state)
            last_updated := now
            registered_sessions := (trigger_sessions r.registered_sessions current live).2 }
          session := { sess with lastSynced := some now }
          rerunSelf := false
          rerunOthers := (trigger_sessions r.registered_sessions current live).1 } := by
      unfold sync
      rw [if_neg hA, if_pos hlen]
    rw [hs]
    refine ⟨?_, rfl, rfl, ?_, ?_⟩
    · funext k
      exact applyUpdates_lookup r.state _ (computeUpdatedValues_keys_nodup env r.state) k
    · intro sid
      exact mem_trigger_sessions_fst r.registered_sessions current live sid
    · intro hc
      rcases (mem_trigger_sessions_fst r.registered_sessions current live current).1 hc
        with ⟨_, h2, _⟩
      exact h2 rfl

/-- Witness for C2 (amended) at a concrete in-sync session with one pending
change. -/
theorem sync_branchB_pushes_witness :
    (⟨some 0, fun _ => none⟩ : SessionLocal).lastSynced =
      some (SyncedState.init "b2").last_updated ∧
    (sync (SyncedState.init "b2") ⟨some 0, fun _ => none⟩ envX "A"
      (fun _ => true) 5).room.last_updated = 5 := by
  refine ⟨by decide, ?_⟩
  have h := sync_branchB_pushes (SyncedState.init "b2") ⟨some 0, fun _ => none⟩ envX "A"
    (fun _ => true) 5 (by decide)
  rw [if_neg (by decide)] at h
  exact h.2.1

/-! ### C4 -/

/-- C4: starting from the epoch sentinel, along any operation sequence whose
`datetime.now()` readings are admissible (at least the room's current
timestamp and non-decreasing), the room's `last_updated` is monotonically
non-decreasing, and any step of the sequence that changes `last_updated` also
changes the room's state map. -/
theorem last_updated_monotone (r : SyncedState) (ops : List Op)
    (hclock : clockMono r.last_updated ops = true) :
    (∀ name, (SyncedState.init name).last_updated = 0) ∧
    r.last_updated ≤ (runOps r ops).last_updated ∧
    ∀ pre op post, ops = pre ++ op :: post →
      ((stepRoom (runOps r pre) op).last_updated ≠ (runOps r pre).last_updated →
        (stepRoom (runOps r pre) op).state ≠ (runOps r pre).state) ∧
      (runOps r pre).last_updated ≤ (stepRoom (runOps r pre) op).last_updated := by
  refine ⟨fun _ => rfl, runOps_mono ops r hclock, ?_⟩
  intro pre op post hsplit
  subst hsplit
  have hpre : clockMono (runOps r pre).last_updated (op :: post) = true :=
    clockMono_append pre (op :: post) r hclock
  constructor
  · intro hne
    rcases stepRoom_last_updated (runOps r pre) op with h | ⟨_, _, _, hstate⟩
    · exact absurd h hne
    · exact hstate
  · exact (clockMono_step (runOps r pre) op post hpre).1

/-- A concrete operation sequence: a registration followed by a branch-B sync
at time 5. -/
def opsW : List Op :=
  [Op.register "A",
   Op.syncOp ⟨some 0, fun _ => none⟩ envX "A" (fun _ => true) 5]

/-- Witness for C4 on `opsW` from a fresh room. -/
theorem last_updated_monotone_witness :
    clockMono (SyncedState.init "c4").last_updated opsW = true ∧
    (SyncedState.init "c4").last_updated ≤
      (runOps (SyncedState.init "c4") opsW).last_updated :=
  ⟨by decide,
   (last_updated_monotone (SyncedState.init "c4") opsW (by decide)).2.1⟩
